import Mathlib

/-!
Verification of the dogs-inventory backend (`src/app.py`).

The development shallowly embeds the pure decision logic of the Flask app:

* JSON-level field values are modelled by `JField` (a dictionary key may be
  absent, present with `null`, or present with a value), matching what the
  Supabase client hands to the handlers.
* `dashboardStats` embeds the statistics computation of the `dashboard`
  handler (lines 28-55 of `src/app.py`), including the explicit empty branch
  and the `total_value += dog.get('price', 0)` accumulation, which raises a
  `TypeError` when `price` is present but `null` (the `.get` default only
  fires for a missing key); the raised error is modelled by `Except.error`.
* `get_dogs` embeds the paginated query of the `get_dogs` handler together
  with a model of the external record store's `select(filters, order, range)`
  operation, which is not part of the repository.
* `admin_login`, `admin_dogs_post` and `admin_dogs_put` embed the admin
  handlers' pure request-to-response logic, with Python truthiness on JSON
  values modelled by `JValue.falsy`.
-/

/-- A dictionary field as seen by the handlers: the key may be missing from
the record, present with JSON `null`, or present with a value. -/
inductive JField (α : Type) where
  | missing : JField α
  | null : JField α
  | val : α → JField α
  deriving DecidableEq, Repr

/-- A record of the `dogs` table, with prices as exact numerals. -/
structure Dog where
  id : Int
  name : JField String
  image : JField String
  breed : JField String
  price : JField Rat
  deriving DecidableEq, Repr

/-- `dog.get('breed')`: a missing key and a `null` value both give Python
`None`, so they collapse to the same grouping key. -/
def breedOf (d : Dog) : Option String :=
  match d.breed with
  | .val b => some b
  | _ => none

/-- The message of the `TypeError` raised by `total_value += None` when a
record's `price` is present but `null`. -/
def typeErrMsg : String := "unsupported operand type(s) for +=: 'int' and 'NoneType'"

/-- The statistics object built by the `dashboard` handler.
`breed_distribution` is the Python dict `breeds`, kept as an insertion-ordered
association list keyed by `dog.get('breed')` (`none` = Python `None`). -/
structure Stats where
  total_dogs : Nat
  unique_breeds : Nat
  breed_distribution : List (Option String × Nat)
  total_inventory_value : Rat
  average_price : Rat
  deriving DecidableEq, Repr

/-- One step of the dict update in the `dashboard` loop:
`if breed in breeds: breeds[breed] += 1 else: breeds[breed] = 1`
(a fresh key is appended at the end, as in an insertion-ordered dict). -/
def bumpBreed : List (Option String × Nat) → Option String → List (Option String × Nat)
  | [], b => [(b, 1)]
  | (k, n) :: rest, b =>
    if k = b then (k, n + 1) :: rest else (k, n) :: bumpBreed rest b

/-- The `for dog in dogs` loop of the `dashboard` handler, threading the
`breeds` dict and `total_value`.  `total_value += dog.get('price', 0)` adds
`0` for a missing key, the value for a present numeric value, and raises a
`TypeError` for a present `null` (Python `int + None`). -/
def dashLoop : List Dog → List (Option String × Nat) → Rat →
    Except String (List (Option String × Nat) × Rat)
  | [], breeds, total => .ok (breeds, total)
  | d :: rest, breeds, total =>
    match d.price with
    | .null => .error typeErrMsg
    | .missing => dashLoop rest (bumpBreed breeds (breedOf d)) (total + 0)
    | .val p => dashLoop rest (bumpBreed breeds (breedOf d)) (total + p)

/-- The statistics computation of the `dashboard` handler: the explicit
`if not dogs` branch returns all-zero statistics; otherwise the loop runs and
the stats dict is assembled, with
`average_price = total_value / len(dogs) if dogs else 0`. -/
def dashboardStats (dogs : List Dog) : Except String Stats :=
  if dogs = [] then
    .ok ⟨0, 0, [], 0, 0⟩
  else
    match dashLoop dogs [] 0 with
    | .error e => .error e
    | .ok (breeds, total) =>
      .ok ⟨dogs.length, breeds.length, breeds, total,
           if dogs = [] then 0 else total / (dogs.length : Rat)⟩

/-- Lookup with default `0`, the reading of `breeds[b]` as a count. -/
def lookupD : List (Option String × Nat) → Option String → Nat
  | [], _ => 0
  | (k, n) :: rest, b => if k = b then n else lookupD rest b

/-- The keys of the `breeds` dict. -/
def keysOf (m : List (Option String × Nat)) : List (Option String) :=
  m.map Prod.fst

/-- The sum of the counts of the `breeds` dict. -/
def sumValues (m : List (Option String × Nat)) : Nat :=
  (m.map Prod.snd).sum

/-- Number of records whose `dog.get('breed')` is `b`. -/
def breedCount (dogs : List Dog) (b : Option String) : Nat :=
  (dogs.filter (fun d => breedOf d = b)).length

/-- The breed-dict accumulation of the loop, in isolation. -/
def foldBreeds (dogs : List Dog) (m : List (Option String × Nat)) :
    List (Option String × Nat) :=
  dogs.foldl (fun acc d => bumpBreed acc (breedOf d)) m

/-- `dog.get('price', 0)` when it does not raise: `0` for a missing key. -/
def price0 (d : Dog) : Rat :=
  match d.price with
  | .val p => p
  | _ => 0

/-- Total of the non-raising price reads. -/
def priceSum (dogs : List Dog) : Rat :=
  (dogs.map price0).sum

/-- The query parameters of the `get_dogs` handler after Flask's type
coercion: `page` (int, default 1, may be non-positive), the multi-valued
`breed` args, and optional float bounds, kept exact as rationals. -/
structure QueryParams where
  page : Int
  breeds : List String
  min_price : Option Rat
  max_price : Option Rat
  deriving DecidableEq, Repr

/-- Modelled from the spec: the filter part of the record store's
`select(filters, order, range)` operation, which is external to the
repository (§6).  A record passes when its `breed` is in the given set
(no restriction when the set is empty) and its `price` lies within the
given bounds; as in SQL, a comparison against a `null` column is not
satisfied. -/
def matchesQuery (q : QueryParams) (d : Dog) : Bool :=
  (q.breeds.isEmpty ||
    (match d.breed with
     | .val b => q.breeds.contains b
     | _ => false))
  && (match q.min_price with
      | none => true
      | some m =>
        match d.price with
        | .val p => decide (m ≤ p)
        | _ => false)
  && (match q.max_price with
      | none => true
      | some m =>
        match d.price with
        | .val p => decide (p ≤ m)
        | _ => false)

/-- Ascending order on the `id` ordering key. -/
def idLe (a b : Dog) : Prop := a.id ≤ b.id

instance : DecidableRel idLe := fun a b => Int.decLe a.id b.id

instance : IsTotal Dog idLe := ⟨fun a b => Int.le_total a.id b.id⟩

instance : IsTrans Dog idLe := ⟨fun _ _ _ => Int.le_trans⟩

/-- Stable ascending-`id` ordering of a list of records. -/
def sortById (l : List Dog) : List Dog := List.insertionSort idLe l

/-- Modelled from the spec: the record store's
`select(filters, order, range) -> records[]` operation (external to the
repository, §6): filter, order ascending by `id`, then return the window of
rows `offset` through `offset + len - 1` inclusive. -/
def storeSelect (q : QueryParams) (store : List Dog) (offset len : Nat) :
    List Dog :=
  ((sortById (store.filter (matchesQuery q))).drop offset).take len

/-- The `get_dogs` handler: `offset = (page - 1) * 20`, window length 20,
page echoed back with the resulting rows.  The spec (§9) leaves `page < 1`
(negative offset) unspecified; it is modelled as a store failure so that no
theorem relies on that case. -/
def get_dogs (q : QueryParams) (store : List Dog) :
    Except String (Int × List Dog) :=
  let offset : Int := (q.page - 1) * 20
  if offset < 0 then .error "range error"
  else .ok (q.page, storeSelect q store offset.toNat 20)

/-- The admin configuration read from the environment (with its defaults
`admin` / `password` / `dummy_admin_token` folded into the fields). -/
structure AdminConfig where
  username : String
  password : String
  token : String
  deriving DecidableEq, Repr

/-- A JSON response body of the admin endpoints. -/
inductive LoginBody where
  | token : String → String → LoginBody
  | err : String → LoginBody
  deriving DecidableEq, Repr

/-- The `admin_login` handler: `data.get("username")`/`data.get("password")`
give `none` for a missing key, and Python `None == str` is `False`, so the
check succeeds exactly when both fields are present and equal the configured
credentials. -/
def admin_login (cfg : AdminConfig) (username password : Option String) :
    Nat × LoginBody :=
  if username = some cfg.username ∧ password = some cfg.password then
    (200, .token cfg.token "Login successful")
  else
    (403, .err "Invalid credentials")

/-- A JSON value as handled by the admin endpoints. -/
inductive JValue where
  | null : JValue
  | str : String → JValue
  | num : Rat → JValue
  | bool : Bool → JValue
  deriving DecidableEq, Repr

/-- Python truthiness on JSON values: `None`, `""`, `0` and `False` are
falsy. -/
def JValue.falsy : JValue → Bool
  | .null => true
  | .str s => s = ""
  | .num q => q = 0
  | .bool b => !b

/-- `data.get(k)` on a parsed JSON object: `None` when the key is absent. -/
def jget (payload : List (String × JValue)) (k : String) : JValue :=
  match payload.find? (fun kv => kv.1 = k) with
  | some kv => kv.2
  | none => .null

/-- Outcome of the `POST /admin` branch of `admin_dogs`. -/
inductive PostResult where
  | badRequest : String → PostResult
  | inserted : JValue → JValue → JValue → JValue → PostResult
  deriving DecidableEq, Repr

/-- The `POST /admin` branch of `admin_dogs` on a JSON payload:
`if not all([name, image, breed, price])` rejects the request when any of
the four values is falsy; otherwise `add_dogs` inserts exactly those four
values. -/
def admin_dogs_post (payload : List (String × JValue)) : PostResult :=
  if (jget payload "name").falsy || (jget payload "image").falsy ||
      (jget payload "breed").falsy || (jget payload "price").falsy then
    .badRequest "Missing required fields"
  else
    .inserted (jget payload "name") (jget payload "image")
      (jget payload "breed") (jget payload "price")

/-- Outcome of the `PUT /admin` branch of `admin_dogs`. -/
inductive PutResult where
  | badRequest : String → PutResult
  | updated : JValue → List (String × JValue) → PutResult
  deriving DecidableEq, Repr

/-- The allow-list of the partial-update merge. -/
def allowKeys : List String := ["name", "image", "breed", "price"]

/-- The `PUT /admin` branch of `admin_dogs` on a JSON payload:
`if not dog_id` rejects a falsy id; the dict comprehension keeps exactly the
allow-listed keys; `if not update_data` rejects an empty result; otherwise
the store's update is invoked with the kept fields. -/
def admin_dogs_put (payload : List (String × JValue)) : PutResult :=
  if (jget payload "id").falsy then
    .badRequest "Missing dog id"
  else if payload.filter (fun kv => allowKeys.contains kv.1) = [] then
    .badRequest "No valid fields to update"
  else
    .updated (jget payload "id") (payload.filter (fun kv => allowKeys.contains kv.1))

theorem lookupD_bumpBreed (m : List (Option String × Nat)) (b b' : Option String) :
    lookupD (bumpBreed m b) b' = lookupD m b' + (if b' = b then 1 else 0) := by
  induction m with
  | nil =>
    simp only [bumpBreed, lookupD]
    by_cases h : b = b'
    · subst h; simp
    · rw [if_neg h, if_neg (fun hh => h hh.symm)]
  | cons kn rest ih =>
    obtain ⟨k, n⟩ := kn
    simp only [bumpBreed]
    by_cases hkb : k = b
    · subst hkb
      rw [if_pos rfl]
      simp only [lookupD]
      by_cases hb' : k = b'
      · subst hb'
        rw [if_pos rfl, if_pos rfl, if_pos rfl]
      · rw [if_neg hb', if_neg hb', if_neg (fun hh => hb' hh.symm)]
        omega
    · rw [if_neg hkb]
      simp only [lookupD]
      by_cases hb' : k = b'
      · subst hb'
        rw [if_pos rfl, if_pos rfl, if_neg hkb]
        omega
      · rw [if_neg hb', if_neg hb', ih]

theorem sumValues_bumpBreed (m : List (Option String × Nat)) (b : Option String) :
    sumValues (bumpBreed m b) = sumValues m + 1 := by
  induction m with
  | nil => simp [bumpBreed, sumValues]
  | cons kn rest ih =>
    obtain ⟨k, n⟩ := kn
    simp only [bumpBreed]
    by_cases hkb : k = b
    · subst hkb
      rw [if_pos rfl]
      simp only [sumValues, List.map_cons, List.sum_cons]
      omega
    · rw [if_neg hkb]
      simp only [sumValues, List.map_cons, List.sum_cons] at ih ⊢
      omega

theorem mem_keysOf_bumpBreed (m : List (Option String × Nat)) (b b' : Option String) :
    b' ∈ keysOf (bumpBreed m b) ↔ b' ∈ keysOf m ∨ b' = b := by
  induction m with
  | nil => simp [bumpBreed, keysOf]
  | cons kn rest ih =>
    obtain ⟨k, n⟩ := kn
    simp only [bumpBreed]
    by_cases hkb : k = b
    · subst hkb
      rw [if_pos rfl]
      simp only [keysOf, List.map_cons, List.mem_cons]
      tauto
    · rw [if_neg hkb]
      simp only [keysOf, List.map_cons, List.mem_cons] at ih ⊢
      tauto

theorem nodup_keysOf_bumpBreed (m : List (Option String × Nat)) (b : Option String)
    (h : (keysOf m).Nodup) : (keysOf (bumpBreed m b)).Nodup := by
  induction m with
  | nil => simp [bumpBreed, keysOf]
  | cons kn rest ih =>
    obtain ⟨k, n⟩ := kn
    simp only [bumpBreed]
    by_cases hkb : k = b
    · subst hkb
      rw [if_pos rfl]
      exact h
    · rw [if_neg hkb]
      simp only [keysOf, List.map_cons, List.nodup_cons] at h ⊢
      refine ⟨fun hmem => ?_, ih h.2⟩
      rcases (mem_keysOf_bumpBreed rest b k).mp hmem with hk | hk
      · exact h.1 hk
      · exact hkb hk

theorem lookupD_ne_zero_mem (m : List (Option String × Nat)) (b : Option String)
    (h : lookupD m b ≠ 0) : b ∈ keysOf m := by
  induction m with
  | nil => simp [lookupD] at h
  | cons kn rest ih =>
    obtain ⟨k, n⟩ := kn
    simp only [lookupD] at h
    simp only [keysOf, List.map_cons, List.mem_cons]
    by_cases hkb : k = b
    · exact Or.inl hkb.symm
    · rw [if_neg hkb] at h
      exact Or.inr (ih h)

theorem foldBreeds_nil (m : List (Option String × Nat)) : foldBreeds [] m = m := rfl

theorem foldBreeds_cons (d : Dog) (dogs : List Dog) (m : List (Option String × Nat)) :
    foldBreeds (d :: dogs) m = foldBreeds dogs (bumpBreed m (breedOf d)) := rfl

theorem breedCount_nil (b : Option String) : breedCount [] b = 0 := rfl

theorem breedCount_cons (d : Dog) (dogs : List Dog) (b : Option String) :
    breedCount (d :: dogs) b =
      (if breedOf d = b then 1 else 0) + breedCount dogs b := by
  simp only [breedCount, List.filter_cons]
  by_cases h : breedOf d = b
  · simp [h]
    omega
  · simp [h]

theorem lookupD_foldBreeds (dogs : List Dog) (m : List (Option String × Nat))
    (b : Option String) :
    lookupD (foldBreeds dogs m) b = lookupD m b + breedCount dogs b := by
  induction dogs generalizing m with
  | nil => simp [foldBreeds_nil, breedCount_nil]
  | cons d rest ih =>
    rw [foldBreeds_cons, ih, lookupD_bumpBreed, breedCount_cons]
    by_cases h : breedOf d = b
    · rw [if_pos h, if_pos h.symm]
      omega
    · rw [if_neg h, if_neg (fun hh => h hh.symm)]
      omega

theorem sumValues_foldBreeds (dogs : List Dog) (m : List (Option String × Nat)) :
    sumValues (foldBreeds dogs m) = sumValues m + dogs.length := by
  induction dogs generalizing m with
  | nil => simp [foldBreeds_nil]
  | cons d rest ih =>
    rw [foldBreeds_cons, ih, sumValues_bumpBreed]
    simp only [List.length_cons]
    omega

theorem mem_keysOf_foldBreeds (dogs : List Dog) (m : List (Option String × Nat))
    (b : Option String) :
    b ∈ keysOf (foldBreeds dogs m) ↔ b ∈ keysOf m ∨ b ∈ dogs.map breedOf := by
  induction dogs generalizing m with
  | nil => simp [foldBreeds_nil]
  | cons d rest ih =>
    rw [foldBreeds_cons, ih]
    simp only [mem_keysOf_bumpBreed, List.map_cons, List.mem_cons]
    tauto

theorem nodup_keysOf_foldBreeds (dogs : List Dog) (m : List (Option String × Nat))
    (h : (keysOf m).Nodup) : (keysOf (foldBreeds dogs m)).Nodup := by
  induction dogs generalizing m with
  | nil => exact h
  | cons d rest ih =>
    rw [foldBreeds_cons]
    exact ih _ (nodup_keysOf_bumpBreed _ _ h)

theorem dashLoop_ok (dogs : List Dog) (m : List (Option String × Nat)) (t : Rat)
    (h : ∀ d ∈ dogs, d.price ≠ JField.null) :
    dashLoop dogs m t = .ok (foldBreeds dogs m, t + priceSum dogs) := by
  induction dogs generalizing m t with
  | nil => simp [dashLoop, foldBreeds_nil, priceSum]
  | cons d rest ih =>
    have hd : d.price ≠ JField.null := h d (List.mem_cons_self d rest)
    have hrest : ∀ x ∈ rest, x.price ≠ JField.null :=
      fun x hx => h x (List.mem_cons_of_mem d hx)
    cases hp : d.price with
    | null => exact absurd hp hd
    | missing =>
      simp only [dashLoop, hp]
      rw [ih _ _ hrest, foldBreeds_cons]
      simp only [priceSum, List.map_cons, List.sum_cons, price0, hp]
      norm_num
    | val p =>
      simp only [dashLoop, hp]
      rw [ih _ _ hrest, foldBreeds_cons]
      simp only [priceSum, List.map_cons, List.sum_cons, price0, hp]
      rw [add_assoc]

theorem dashLoop_error (dogs : List Dog) (m : List (Option String × Nat)) (t : Rat)
    (h : ∃ d ∈ dogs, d.price = JField.null) :
    dashLoop dogs m t = .error typeErrMsg := by
  induction dogs generalizing m t with
  | nil => simp at h
  | cons d rest ih =>
    cases hp : d.price with
    | null => simp [dashLoop, hp]
    | missing =>
      simp only [dashLoop, hp]
      apply ih
      rcases h with ⟨x, hx, hxn⟩
      rcases List.mem_cons.mp hx with rfl | hx
      · rw [hp] at hxn; exact absurd hxn (by simp)
      · exact ⟨x, hx, hxn⟩
    | val p =>
      simp only [dashLoop, hp]
      apply ih
      rcases h with ⟨x, hx, hxn⟩
      rcases List.mem_cons.mp hx with rfl | hx
      · rw [hp] at hxn; exact absurd hxn (by simp)
      · exact ⟨x, hx, hxn⟩

theorem dashboardStats_ok_iff (dogs : List Dog) (s : Stats) :
    dashboardStats dogs = Except.ok s ↔
      (dogs = [] ∧ s = ⟨0, 0, [], 0, 0⟩) ∨
      (dogs ≠ [] ∧ (∀ d ∈ dogs, d.price ≠ JField.null) ∧
       s = ⟨dogs.length, (foldBreeds dogs []).length, foldBreeds dogs [],
            priceSum dogs, priceSum dogs / (dogs.length : Rat)⟩) := by
  by_cases hdogs : dogs = []
  · subst hdogs
    simp only [dashboardStats, if_pos rfl]
    constructor
    · intro h
      exact Or.inl ⟨by trivial, ((Except.ok.injEq _ _).mp h).symm⟩
    · rintro (⟨-, rfl⟩ | ⟨hne, -⟩)
      · rfl
      · exact absurd rfl hne
  · rw [dashboardStats, if_neg hdogs]
    by_cases hnull : ∀ d ∈ dogs, d.price ≠ JField.null
    · rw [dashLoop_ok dogs [] 0 hnull]
      simp only [zero_add, if_neg hdogs]
      constructor
      · intro h
        refine Or.inr ⟨hdogs, hnull, ?_⟩
        exact ((Except.ok.injEq _ _).mp h).symm
      · rintro (⟨h, -⟩ | ⟨-, -, rfl⟩)
        · exact absurd h hdogs
        · rfl
    · have herr : ∃ d ∈ dogs, d.price = JField.null := by
        push_neg at hnull
        exact hnull
      rw [dashLoop_error dogs [] 0 herr]
      constructor
      · intro h
        exact absurd h (by simp)
      · rintro (⟨h, -⟩ | ⟨-, hn, -⟩)
        · exact absurd h hdogs
        · exact absurd hn hnull

/-- The spec's dashboard scenario input, with the third record's `price`
column `null` (as a present key, the way the database client returns it). -/
def exDogsNull : List Dog :=
  [⟨1, .missing, .missing, .val "Lab", .val 100⟩,
   ⟨2, .missing, .missing, .val "Lab", .val 200⟩,
   ⟨3, .missing, .missing, .val "Poodle", .null⟩]

/-- The same input with the third record's `price` key absent. -/
def exDogsMissing : List Dog :=
  [⟨1, .missing, .missing, .val "Lab", .val 100⟩,
   ⟨2, .missing, .missing, .val "Lab", .val 200⟩,
   ⟨3, .missing, .missing, .val "Poodle", .missing⟩]

/-- The statistics the spec's scenario expects. -/
def statsEx : Stats :=
  ⟨3, 2, [(some "Lab", 2), (some "Poodle", 1)], 300, 100⟩

theorem dashboardStats_exDogsMissing :
    dashboardStats exDogsMissing = Except.ok statsEx := by
  simp [dashboardStats, exDogsMissing, dashLoop, bumpBreed, breedOf, statsEx]
  norm_num

theorem dashboardStats_exDogsNull :
    dashboardStats exDogsNull = Except.error typeErrMsg := by
  simp [dashboardStats, exDogsNull, dashLoop]

/-- C2: on the empty record sequence the `dashboard` aggregator takes the
explicit `if not dogs` branch and returns total_dogs 0, unique_breeds 0,
an empty breed_distribution, total_inventory_value 0 and average_price 0,
without running the general computation. -/
theorem dashboard_empty_branch :
    dashboardStats [] = Except.ok ⟨0, 0, [], 0, 0⟩ := rfl

/-- C1 counterexample: on the spec's scenario input
`[{id:1,breed:"Lab",price:100}, {id:2,breed:"Lab",price:200},
{id:3,breed:"Poodle",price:null}]` the aggregator does not return
total_inventory_value 300: `dog.get('price', 0)` returns `None` for the
present-but-null price, so `total_value += None` raises a `TypeError` and the
endpoint errors. -/
theorem dashboard_null_price_scenario_errors :
    dashboardStats exDogsNull = Except.error typeErrMsg :=
  dashboardStats_exDogsNull

/-- C1 (amended): `total_inventory_value` is the sum of `price` over all
records treating a missing price key as 0, but a price that is present and
`null` makes the aggregation raise a `TypeError` (surfaced as 500).  On the
scenario input with the null price the endpoint errors; with the third
record's price key absent instead it returns total_inventory_value 300. -/
theorem dashboard_total_inventory_value :
    (∀ dogs s, dashboardStats dogs = Except.ok s →
      s.total_inventory_value = priceSum dogs) ∧
    dashboardStats exDogsMissing = Except.ok statsEx ∧
    statsEx.total_inventory_value = 300 ∧
    dashboardStats exDogsNull = Except.error typeErrMsg := by
  refine ⟨?_, dashboardStats_exDogsMissing, rfl, dashboardStats_exDogsNull⟩
  intro dogs s h
  rcases (dashboardStats_ok_iff dogs s).mp h with ⟨rfl, rfl⟩ | ⟨-, -, rfl⟩
  · rfl
  · rfl

/-- C1 witness: the amended theorem applied to the scenario input with the
price key absent. -/
theorem dashboard_total_inventory_value_witness :
    dashboardStats exDogsMissing = Except.ok statsEx ∧
    statsEx.total_inventory_value = priceSum exDogsMissing :=
  ⟨dashboard_total_inventory_value.2.1,
   dashboard_total_inventory_value.1 exDogsMissing statsEx
     dashboard_total_inventory_value.2.1⟩

/-- C4: whenever the aggregator succeeds on a non-empty record sequence,
`average_price` equals `total_inventory_value / total_dogs` exactly. -/
theorem dashboard_average_price (dogs : List Dog) (s : Stats)
    (hne : dogs ≠ []) (h : dashboardStats dogs = Except.ok s) :
    s.average_price = s.total_inventory_value / (s.total_dogs : Rat) := by
  rcases (dashboardStats_ok_iff dogs s).mp h with ⟨he, -⟩ | ⟨-, -, rfl⟩
  · exact absurd he hne
  · rfl

/-- C4 witness: the theorem applied to a concrete non-empty input. -/
theorem dashboard_average_price_witness :
    exDogsMissing ≠ [] ∧ dashboardStats exDogsMissing = Except.ok statsEx ∧
    statsEx.average_price = statsEx.total_inventory_value /
      (statsEx.total_dogs : Rat) :=
  ⟨by simp [exDogsMissing], dashboardStats_exDogsMissing,
   dashboard_average_price exDogsMissing statsEx (by simp [exDogsMissing])
     dashboardStats_exDogsMissing⟩

/-- C5: whenever the aggregator succeeds, `breed_distribution` maps each
breed key (with null/missing breed collapsed to one key) to the number of
records with that breed, its keys are exactly the breed values present, its
values sum to `total_dogs`, and `unique_breeds` is its number of keys. -/
theorem dashboard_breed_distribution (dogs : List Dog) (s : Stats)
    (h : dashboardStats dogs = Except.ok s) :
    (∀ b, lookupD s.breed_distribution b = breedCount dogs b) ∧
    (∀ b, b ∈ keysOf s.breed_distribution ↔ b ∈ dogs.map breedOf) ∧
    sumValues s.breed_distribution = s.total_dogs ∧
    s.unique_breeds = s.breed_distribution.length := by
  rcases (dashboardStats_ok_iff dogs s).mp h with ⟨rfl, rfl⟩ | ⟨-, -, rfl⟩
  · exact ⟨fun b => rfl, fun b => by simp [keysOf], rfl, rfl⟩
  · refine ⟨fun b => ?_, fun b => ?_, ?_, rfl⟩
    · rw [lookupD_foldBreeds]
      simp [lookupD]
    · rw [mem_keysOf_foldBreeds]
      simp [keysOf]
    · rw [sumValues_foldBreeds]
      simp [sumValues]

/-- C5 witness: the theorem applied to a concrete input. -/
theorem dashboard_breed_distribution_witness :
    lookupD statsEx.breed_distribution (some "Lab") =
      breedCount exDogsMissing (some "Lab") ∧
    sumValues statsEx.breed_distribution = statsEx.total_dogs :=
  ⟨(dashboard_breed_distribution exDogsMissing statsEx
      dashboardStats_exDogsMissing).1 (some "Lab"),
   (dashboard_breed_distribution exDogsMissing statsEx
      dashboardStats_exDogsMissing).2.2.1⟩

/-- C6: the aggregator is a pure function of the input sequence and is
invariant under permutation: when it succeeds on a sequence it succeeds on
every reordering, with equal total_dogs, unique_breeds, breed_distribution
(as a mapping), total_inventory_value and average_price. -/
theorem dashboard_perm_invariant (dogs1 dogs2 : List Dog)
    (hperm : dogs1.Perm dogs2) (s1 : Stats)
    (h1 : dashboardStats dogs1 = Except.ok s1) :
    ∃ s2 : Stats, dashboardStats dogs2 = Except.ok s2 ∧
      s1.total_dogs = s2.total_dogs ∧
      s1.unique_breeds = s2.unique_breeds ∧
      (∀ b, lookupD s1.breed_distribution b = lookupD s2.breed_distribution b) ∧
      s1.total_inventory_value = s2.total_inventory_value ∧
      s1.average_price = s2.average_price := by
  rcases (dashboardStats_ok_iff dogs1 s1).mp h1 with ⟨rfl, rfl⟩ | ⟨hne, hnull, rfl⟩
  · have h2 : dogs2 = [] := List.Perm.eq_nil hperm.symm
    subst h2
    exact ⟨⟨0, 0, [], 0, 0⟩, rfl, rfl, rfl, fun b => rfl, rfl, rfl⟩
  · have hne2 : dogs2 ≠ [] := by
      intro h2
      subst h2
      exact hne (List.Perm.eq_nil hperm)
    have hnull2 : ∀ d ∈ dogs2, d.price ≠ JField.null :=
      fun d hd => hnull d (hperm.mem_iff.mpr hd)
    have hsum : priceSum dogs1 = priceSum dogs2 := (hperm.map price0).sum_eq
    have hlen : dogs1.length = dogs2.length := hperm.length_eq
    refine ⟨⟨dogs2.length, (foldBreeds dogs2 []).length, foldBreeds dogs2 [],
             priceSum dogs2, priceSum dogs2 / (dogs2.length : Rat)⟩,
            (dashboardStats_ok_iff dogs2 _).mpr (Or.inr ⟨hne2, hnull2, rfl⟩),
            hlen, ?_, ?_, hsum, ?_⟩
    · have hn1 : (keysOf (foldBreeds dogs1 [])).Nodup :=
        nodup_keysOf_foldBreeds _ _ (by simp [keysOf])
      have hn2 : (keysOf (foldBreeds dogs2 [])).Nodup :=
        nodup_keysOf_foldBreeds _ _ (by simp [keysOf])
      have hmem : ∀ b, b ∈ keysOf (foldBreeds dogs1 []) ↔
          b ∈ keysOf (foldBreeds dogs2 []) := by
        intro b
        rw [mem_keysOf_foldBreeds, mem_keysOf_foldBreeds]
        simp only [keysOf, List.map_nil, List.not_mem_nil, false_or]
        exact (hperm.map breedOf).mem_iff
      have hkperm : (keysOf (foldBreeds dogs1 [])).Perm (keysOf (foldBreeds dogs2 [])) :=
        (List.perm_ext_iff_of_nodup hn1 hn2).mpr hmem
      have hklen := hkperm.length_eq
      simpa only [keysOf, List.length_map] using hklen
    · intro b
      rw [lookupD_foldBreeds, lookupD_foldBreeds]
      have hc : breedCount dogs1 b = breedCount dogs2 b := (hperm.filter _).length_eq
      rw [hc]
    · rw [hsum, hlen]

/-- A concrete record used by witnesses. -/
def dogA : Dog := ⟨1, .missing, .missing, .val "Lab", .val 100⟩

/-- A second concrete record used by witnesses. -/
def dogB : Dog := ⟨2, .missing, .missing, .val "Poodle", .val 200⟩

/-- The statistics of `[dogA, dogB]`. -/
def statsAB : Stats :=
  ⟨2, 2, [(some "Lab", 1), (some "Poodle", 1)], 300, 150⟩

theorem dashboardStats_dogAB :
    dashboardStats [dogA, dogB] = Except.ok statsAB := by
  simp [dashboardStats, dogA, dogB, dashLoop, bumpBreed, breedOf, statsAB]
  norm_num

/-- C6 witness: the theorem applied to `[dogA, dogB]` and its swap. -/
theorem dashboard_perm_invariant_witness :
    ∃ s2 : Stats, dashboardStats [dogB, dogA] = Except.ok s2 ∧
      statsAB.total_dogs = s2.total_dogs ∧
      statsAB.unique_breeds = s2.unique_breeds ∧
      (∀ b, lookupD statsAB.breed_distribution b =
        lookupD s2.breed_distribution b) ∧
      statsAB.total_inventory_value = s2.total_inventory_value ∧
      statsAB.average_price = s2.average_price :=
  dashboard_perm_invariant [dogA, dogB] [dogB, dogA]
    (List.Perm.swap dogB dogA []) statsAB dashboardStats_dogAB

/-- C3: for every page `>= 1` and store contents, `get_dogs` succeeds and
returns at most 20 records; the result is exactly the window of the
ascending-id ordering of the filtered set at indices `(page-1)*20` through
`(page-1)*20 + 19`; the ordering is sorted by `id` and a permutation of the
filtered set; and the window is empty (not an error) when the offset is at
least the number of matching records. -/
theorem get_dogs_window (q : QueryParams) (store : List Dog)
    (hpage : 1 ≤ q.page) :
    ∃ dogsOut : List Dog,
      get_dogs q store = Except.ok (q.page, dogsOut) ∧
      dogsOut.length ≤ 20 ∧
      dogsOut = ((sortById (store.filter (matchesQuery q))).drop
                  ((q.page - 1).toNat * 20)).take 20 ∧
      (sortById (store.filter (matchesQuery q))).Sorted idLe ∧
      (sortById (store.filter (matchesQuery q))).Perm
        (store.filter (matchesQuery q)) ∧
      ((store.filter (matchesQuery q)).length ≤ (q.page - 1).toNat * 20 →
        dogsOut = []) := by
  have hoff : ¬((q.page - 1) * 20 < 0) := by omega
  have htoNat : ((q.page - 1) * 20).toNat = (q.page - 1).toNat * 20 := by omega
  refine ⟨storeSelect q store ((q.page - 1) * 20).toNat 20, ?_, ?_, ?_, ?_, ?_, ?_⟩
  · rw [get_dogs, if_neg hoff]
  · exact List.length_take_le 20 _
  · rw [storeSelect, htoNat]
  · exact List.sorted_insertionSort idLe _
  · exact List.perm_insertionSort idLe _
  · intro hlen
    have hslen : (sortById (store.filter (matchesQuery q))).length =
        (store.filter (matchesQuery q)).length :=
      (List.perm_insertionSort idLe _).length_eq
    rw [storeSelect, htoNat, List.drop_eq_nil_of_le (by rw [hslen]; exact hlen)]
    rfl

/-- A query with page 1 and no filters, used by witnesses. -/
def qPlain : QueryParams := ⟨1, [], none, none⟩

/-- C3 witness: the theorem applied to a concrete query and store. -/
theorem get_dogs_window_witness :
    ∃ dogsOut : List Dog,
      get_dogs qPlain [dogA] = Except.ok (qPlain.page, dogsOut) ∧
      dogsOut.length ≤ 20 ∧
      dogsOut = ((sortById ([dogA].filter (matchesQuery qPlain))).drop
                  ((qPlain.page - 1).toNat * 20)).take 20 ∧
      (sortById ([dogA].filter (matchesQuery qPlain))).Sorted idLe ∧
      (sortById ([dogA].filter (matchesQuery qPlain))).Perm
        ([dogA].filter (matchesQuery qPlain)) ∧
      (([dogA].filter (matchesQuery qPlain)).length ≤
          (qPlain.page - 1).toNat * 20 → dogsOut = []) :=
  get_dogs_window qPlain [dogA] (by decide)

/-- C7: with both price bounds present and `min_price > max_price`, or with a
non-empty breed filter none of whose values occurs in the store, the
paginated query returns an empty list, not an error. -/
theorem get_dogs_vacuous_filters (q : QueryParams) (store : List Dog)
    (hpage : 1 ≤ q.page)
    (h : (∃ mn mx, q.min_price = some mn ∧ q.max_price = some mx ∧ mx < mn) ∨
         (q.breeds ≠ [] ∧ ∀ d ∈ store, ∀ b, d.breed = JField.val b →
            b ∉ q.breeds)) :
    get_dogs q store = Except.ok (q.page, []) := by
  have hfilter : store.filter (matchesQuery q) = [] := by
    rw [List.filter_eq_nil_iff]
    intro d hd
    rcases h with ⟨mn, mx, hmn, hmx, hlt⟩ | ⟨hne, habs⟩
    · intro hmatch
      simp only [matchesQuery, hmn, hmx, Bool.and_eq_true] at hmatch
      obtain ⟨⟨-, hge⟩, hle⟩ := hmatch
      cases hdp : d.price with
      | missing => rw [hdp] at hge; simp at hge
      | null => rw [hdp] at hge; simp at hge
      | val p =>
        rw [hdp] at hge hle
        simp only [decide_eq_true_eq] at hge hle
        exact absurd (le_trans hge hle) (not_le.mpr hlt)
    · intro hmatch
      simp only [matchesQuery, Bool.and_eq_true] at hmatch
      obtain ⟨⟨hbr, -⟩, -⟩ := hmatch
      cases hdb : d.breed with
      | missing =>
        rw [hdb] at hbr
        simp only [Bool.or_eq_true, List.isEmpty_iff] at hbr
        rcases hbr with hempty | hfalse
        · exact hne hempty
        · simp at hfalse
      | null =>
        rw [hdb] at hbr
        simp only [Bool.or_eq_true, List.isEmpty_iff] at hbr
        rcases hbr with hempty | hfalse
        · exact hne hempty
        · simp at hfalse
      | val b =>
        rw [hdb] at hbr
        simp only [Bool.or_eq_true, List.isEmpty_iff] at hbr
        rcases hbr with hempty | hcontains
        · exact hne hempty
        · have hmem : b ∈ q.breeds := by simpa using hcontains
          exact habs d hd b hdb hmem
  have hoff : ¬((q.page - 1) * 20 < 0) := by omega
  rw [get_dogs, if_neg hoff, storeSelect, hfilter]
  simp [sortById, List.insertionSort]

/-- A query whose price bounds are contradictory, used by witnesses. -/
def qBadBounds : QueryParams := ⟨1, [], some 10, some 5⟩

/-- C7 witness: the theorem applied to a concrete query and store. -/
theorem get_dogs_vacuous_filters_witness :
    get_dogs qBadBounds [dogA] = Except.ok (qBadBounds.page, []) :=
  get_dogs_vacuous_filters qBadBounds [dogA] (by decide)
    (Or.inl ⟨10, 5, rfl, rfl, by norm_num⟩)

/-- C8: admin login returns 200 with the configured token exactly when the
supplied username and password both equal the configured credentials; every
other pair gets 403 with an error body and no token. -/
theorem admin_login_correct (cfg : AdminConfig) (username password : Option String) :
    (admin_login cfg username password =
        (200, LoginBody.token cfg.token "Login successful") ↔
      username = some cfg.username ∧ password = some cfg.password) ∧
    (¬(username = some cfg.username ∧ password = some cfg.password) →
      admin_login cfg username password =
        (403, LoginBody.err "Invalid credentials")) := by
  constructor
  · constructor
    · intro h
      by_contra hc
      rw [admin_login, if_neg hc] at h
      simp at h
    · intro hc
      rw [admin_login, if_pos hc]
  · intro hc
    rw [admin_login, if_neg hc]

/-- C8 witness: the theorem applied to concrete credentials, right and wrong. -/
theorem admin_login_correct_witness :
    admin_login ⟨"admin", "password", "tok"⟩ (some "admin") (some "password") =
      (200, LoginBody.token "tok" "Login successful") ∧
    admin_login ⟨"admin", "password", "tok"⟩ (some "admin") (some "wrong") =
      (403, LoginBody.err "Invalid credentials") :=
  ⟨(admin_login_correct ⟨"admin", "password", "tok"⟩ (some "admin")
      (some "password")).1.mpr ⟨rfl, rfl⟩,
   (admin_login_correct ⟨"admin", "password", "tok"⟩ (some "admin")
      (some "wrong")).2 (by simp)⟩

/-- C9: the partial update keeps exactly the allow-listed payload keys
`name`, `image`, `breed`, `price` (dropping every other key, including `id`);
a payload whose `id` is absent, and a payload with no allow-listed key, are
rejected with 400 before the store is called. -/
theorem admin_put_allowlist (payload : List (String × JValue)) :
    (jget payload "id" = JValue.null →
      admin_dogs_put payload = .badRequest "Missing dog id") ∧
    ((∀ kv ∈ payload, kv.1 ∉ allowKeys) →
      ∃ msg, admin_dogs_put payload = .badRequest msg) ∧
    (∀ i fs, admin_dogs_put payload = .updated i fs →
      fs = payload.filter (fun kv => allowKeys.contains kv.1)) := by
  refine ⟨?_, ?_, ?_⟩
  · intro hid
    rw [admin_dogs_put, hid]
    rfl
  · intro habs
    have hfilter : payload.filter (fun kv => allowKeys.contains kv.1) = [] := by
      rw [List.filter_eq_nil_iff]
      intro kv hkv hcontains
      exact habs kv hkv (by simpa using hcontains)
    rw [admin_dogs_put]
    by_cases hid : (jget payload "id").falsy
    · rw [if_pos hid]
      exact ⟨"Missing dog id", rfl⟩
    · rw [if_neg hid, if_pos hfilter]
      exact ⟨"No valid fields to update", rfl⟩
  · intro i fs h
    rw [admin_dogs_put] at h
    by_cases hid : (jget payload "id").falsy
    · rw [if_pos hid] at h
      exact absurd h (by simp)
    · rw [if_neg hid] at h
      by_cases hf : payload.filter (fun kv => allowKeys.contains kv.1) = []
      · rw [if_pos hf] at h
        exact absurd h (by simp)
      · rw [if_neg hf] at h
        exact (((PutResult.updated.injEq _ _ _ _).mp h).2).symm

/-- C9 witness: the theorem applied to a concrete payload with no id. -/
theorem admin_put_allowlist_witness :
    admin_dogs_put [("junk", JValue.num 1)] = .badRequest "Missing dog id" :=
  (admin_put_allowlist [("junk", JValue.num 1)]).1 rfl

/-- C10: the create branch answers 400 "Missing required fields" without
inserting whenever any of name, image, breed, price is falsy (missing/null,
empty string, 0 or False); consequently an insert can only happen with a
truthy price, so a record with price 0 is never created. -/
theorem admin_post_truthiness (payload : List (String × JValue)) :
    (((jget payload "name").falsy || (jget payload "image").falsy ||
      (jget payload "breed").falsy || (jget payload "price").falsy) = true →
      admin_dogs_post payload = .badRequest "Missing required fields") ∧
    (jget payload "price" = JValue.num 0 →
      admin_dogs_post payload = .badRequest "Missing required fields") ∧
    (∀ n i b p, admin_dogs_post payload = .inserted n i b p →
      p.falsy = false ∧ p ≠ JValue.num 0) := by
  refine ⟨?_, ?_, ?_⟩
  · intro hfalsy
    rw [admin_dogs_post, if_pos hfalsy]
  · intro hprice
    rw [admin_dogs_post, hprice]
    simp [JValue.falsy]
  · intro n i b p h
    rw [admin_dogs_post] at h
    by_cases hc : ((jget payload "name").falsy || (jget payload "image").falsy ||
        (jget payload "breed").falsy || (jget payload "price").falsy) = true
    · rw [if_pos hc] at h
      exact absurd h (by simp)
    · rw [if_neg hc] at h
      have hp : p = jget payload "price" :=
        (((PostResult.inserted.injEq _ _ _ _ _ _ _ _).mp h).2.2.2).symm
      have hpf : (jget payload "price").falsy = false := by
        revert hc
        cases (jget payload "name").falsy <;> cases (jget payload "image").falsy <;>
          cases (jget payload "breed").falsy <;> cases (jget payload "price").falsy <;>
          simp
      subst hp
      refine ⟨hpf, ?_⟩
      intro h0
      rw [h0] at hpf
      simp [JValue.falsy] at hpf

/-- C10 witness: the theorem applied to a payload whose price is 0. -/
theorem admin_post_truthiness_witness :
    admin_dogs_post [("name", JValue.str "Rex"), ("image", JValue.str "u"),
        ("breed", JValue.str "Lab"), ("price", JValue.num 0)] =
      .badRequest "Missing required fields" :=
  (admin_post_truthiness [("name", JValue.str "Rex"), ("image", JValue.str "u"),
      ("breed", JValue.str "Lab"), ("price", JValue.num 0)]).2.1 rfl
